import Mathlib

/-!
Shallow embedding of the connectivity-exporter aggregator, translated from
src/connectivity-exporter/packet/packet.go (the user-space side of the
exporter).  Go maps are modelled as association lists, Go slices as lists of
byte values (Nat), Go uint64 values as Nat, wall-clock times as Nat seconds.
Operations that panic at run time (out-of-bounds slice writes) are modelled
with Option, where none stands for a runtime panic.
-/

namespace ConnectivityExporter

/-- Modelled from the spec: the constant STATS_SECONDS_COUNT lives in the C
header c/types.h, which is not under src/; sections 2, 3 and 4.6 of the spec
fix the rotating stats table length and the freshness margin at 20. -/
def STATS_SECONDS_COUNT : Nat := 20

/-- Modelled from the spec: metrics.Expiration lives in the metrics package,
which is not under src/; the spec gives the default SNI retention window as
5 minutes, modelled here as 300 seconds. -/
def Expiration : Nat := 300

/-- Modelled from the spec: the TCP/TLS connection state enumeration comes
from the C header (not under src/); packet.go references the constants
SYN_RECEIVED, SYNACK_RECEIVED, SNI_RECEIVED, RST_SENT_BY_SERVER and
RST_SENT_BY_CLIENT, and the spec (section 3) lists the full set of states. -/
inductive TupleState where
  | NEW
  | SYN_RECEIVED
  | SYNACK_RECEIVED
  | SNI_RECEIVED
  | RST_SENT_BY_SERVER
  | RST_SENT_BY_CLIENT
  | FIN_SENT
deriving DecidableEq, Repr

/-- C.struct_tuple_key_t: 32-bit source and destination IPv4 addresses and
16-bit ports (spec section 3); packet.go reads the source_ip and dest_ip
fields. -/
structure TupleKey where
  source_ip : Nat
  dest_ip : Nat
  source_port : Nat
  dest_port : Nat
deriving DecidableEq, Repr

/-- tupleData, the Go-side decoding of C.struct_tuple_data_t: packet.go uses
the fields sni, state and tickerClockFirstPacket. -/
structure TupleData where
  state : TupleState
  sni : String
  tickerClockFirstPacket : Nat
deriving DecidableEq, Repr

/-- ConnKey from packet.go: the (source IP, destination IP, SNI) triple used
to label increments. -/
structure ConnKey where
  sourceIP : String
  destIP : String
  sni : String
deriving DecidableEq, Repr

/-- metrics.Inc as used by packet.go: labels plus the numeric fields that
TrackConnections and accountForConnections write.  The Go fields are float64
counters incremented by whole numbers; they are modelled as Nat. -/
structure Inc where
  SNI : String
  SourceIP : String
  DestIP : String
  SuccessfulConnections : Nat
  RejectedConnections : Nat
  RejectedConnectionsByClient : Nat
  ActiveSeconds : Nat
  ActiveFailedSeconds : Nat
  FailedSeconds : Nat
deriving DecidableEq, Repr

/-- Go map lookup on an association list. -/
def mapLookup {α β : Type} [DecidableEq α] (m : List (α × β)) (k : α) : Option β :=
  match m.find? (fun e => decide (e.1 = k)) with
  | some e => some e.2
  | none => none

/-- Go map store m[k] = v on an association list (overwrites any previous
binding of k). -/
def mapInsert {α β : Type} [DecidableEq α] (m : List (α × β)) (k : α) (v : β) :
    List (α × β) :=
  (k, v) :: m.filter (fun e => decide (e.1 ≠ k))

/-- Go map delete(m, k) on an association list. -/
def mapDelete {α β : Type} [DecidableEq α] (m : List (α × β)) (k : α) :
    List (α × β) :=
  m.filter (fun e => decide (e.1 ≠ k))

/-- Go binary.LittleEndian.PutUint32: writes the 4 little-endian bytes of v
into the slice b, panicking (modelled as none) when b is shorter than 4
bytes. -/
def putUint32LE (b : List Nat) (v : Nat) : Option (List Nat) :=
  if 4 ≤ b.length then
    some ([v % 256, v / 256 % 256, v / 65536 % 256, v / 16777216 % 256] ++ b.drop 4)
  else
    none

/-- Go net.IP.String for a 4-byte address: the dotted-quad form.  The only
other lengths reaching String in the embedded code paths are impossible, so
they map to a placeholder. -/
def ip4String : List Nat → String
  | [a, b, c, d] => toString a ++ "." ++ toString b ++ "." ++ toString c ++ "." ++ toString d
  | _ => "invalid-ip"

/-- Bytes to a Go string value. -/
def bytesToString (l : List Nat) : String :=
  String.mk (l.map Char.ofNat)

/-- strings.SplitN(s, null, 2)[0]: the prefix of the byte string before the
first null byte (the whole string when no null occurs). -/
def sniFromBytes (l : List Nat) : String :=
  bytesToString (l.takeWhile (fun b => decide (b ≠ 0)))

/-- Decoding of an inner stats-map key in getOldestStatsAndCleanup:
innerKey[0:4] and innerKey[4:8] through net.IP.String, and the
null-terminated SNI from innerKey[8:]. -/
def decodeInnerKey (k : List Nat) : ConnKey :=
  { sourceIP := ip4String (k.take 4)
    destIP := ip4String ((k.drop 4).take 4)
    sni := sniFromBytes (k.drop 8) }

/-- The address decode in TrackConnections (packet.go lines 187-193 and
203-210): a fresh empty net.IP literal is passed to PutUint32. -/
def decodeOldConnIP (ip : Nat) : Option (List Nat) :=
  putUint32LE [] ip

/-- Decoding one old connection into its ConnKey, exactly as TrackConnections
does: both addresses go through the empty-literal PutUint32 and then through
net.IP.String. -/
def decodeConnKey (k : TupleKey) (sni : String) : Option ConnKey := do
  let s ← decodeOldConnIP k.source_ip
  let d ← decodeOldConnIP k.dest_ip
  pure { sourceIP := ip4String s, destIP := ip4String d, sni := sni }

/-- Decoding every drained old connection; none models the runtime panic of
the first failing decode. -/
def oldDecodes : List (TupleKey × TupleData) → Option (List (ConnKey × TupleData))
  | [] => some []
  | e :: rest => do
      let ck ← decodeConnKey e.1 e.2.sni
      let r ← oldDecodes rest
      pure ((ck, e.2) :: r)

/-- isConnectionOld from packet.go: the connection is old when the current
ticker clock exceeds STATS_SECONDS_COUNT plus the tick of its first
packet. -/
def isConnectionOld (tickerClockFirstPacket currentTickerClock : Nat) : Bool :=
  decide (STATS_SECONDS_COUNT + tickerClockFirstPacket < currentTickerClock)

/-- The connection-table scan and delete stage of TrackConnections (packet.go
lines 154-175): collect the old entries, then delete each collected key from
the table.  Returns (oldConnections, table after the deletes). -/
def scanConnections (connMap : List (TupleKey × TupleData)) (currentTickerClock : Nat) :
    List (TupleKey × TupleData) × List (TupleKey × TupleData) :=
  let oldConnections :=
    connMap.filter (fun e => isConnectionOld e.2.tickerClockFirstPacket currentTickerClock)
  (oldConnections, oldConnections.foldl (fun m e => mapDelete m e.1) connMap)

/-- getOldestStatsAndCleanup from packet.go: look up the inner map at
statsKey (an array-map lookup, failing only out of range), collect every
inner entry into a Go map keyed by the decoded ConnKey, remember every inner
key seen, and afterwards delete each remembered key from the inner map. -/
def getOldestStatsAndCleanup (statsMap : List (List (List Nat × Nat × Nat)))
    (statsKey : Nat) :
    Option (List (ConnKey × Nat × Nat) × List (List (List Nat × Nat × Nat))) :=
  if statsKey < statsMap.length then
    let innerMap := statsMap.getD statsKey []
    let out := innerMap.foldl (fun m e => mapInsert m (decodeInnerKey e.1) e.2) []
    let innerKeysToBeDeleted := innerMap.map Prod.fst
    let innerMap1 := innerKeysToBeDeleted.foldl mapDelete innerMap
    some (out, statsMap.set statsKey innerMap1)
  else
    none

/-- One iteration of the loop over staleConnMapInfo in accountForConnections
(packet.go lines 317-337), translated if-by-if from the source. -/
def accountLoopStep (acc : Inc × Bool) (v : TupleData) : Inc × Bool :=
  let inc := acc.1
  let af := acc.2
  let af := if v.state = TupleState.SYN_RECEIVED ∨ v.state = TupleState.SYNACK_RECEIVED
    then true else af
  let inc := if v.state = TupleState.SNI_RECEIVED
    then { inc with SuccessfulConnections := inc.SuccessfulConnections + 1 } else inc
  let p := if v.state = TupleState.RST_SENT_BY_SERVER
    then ({ inc with RejectedConnections := inc.RejectedConnections + 1 }, true)
    else (inc, af)
  let inc := p.1
  let af := p.2
  let inc := if v.state = TupleState.RST_SENT_BY_CLIENT
    then { inc with RejectedConnectionsByClient := inc.RejectedConnectionsByClient + 1 }
    else inc
  (inc, af)

/-- Whether some stale tuple puts the second into the active-failed states
(SYN_RECEIVED, SYNACK_RECEIVED or RST_SENT_BY_SERVER). -/
def staleActiveFailed (l : List TupleData) : Bool :=
  l.any (fun v =>
    decide (v.state = TupleState.SYN_RECEIVED) ||
    decide (v.state = TupleState.SYNACK_RECEIVED) ||
    decide (v.state = TupleState.RST_SENT_BY_SERVER))

/-- State.accountForConnections from packet.go (lines 300-367).  The snis
map of the receiver is passed in and returned; time.Now() is the parameter
now.  Returns (inc, failedSecond, updated snis). -/
def accountForConnections (snis : List (String × Nat)) (now : Nat) (connKey : ConnKey)
    (previousFailedSecond : Bool) (staleConnMapInfo : List TupleData)
    (succeeded_connections failed_connections : Nat) :
    Inc × Bool × List (String × Nat) :=
  let snis := if (mapLookup snis connKey.sni).isNone
    then mapInsert snis connKey.sni now else snis
  let inc : Inc :=
    { SNI := connKey.sni, SourceIP := connKey.sourceIP, DestIP := connKey.destIP
      SuccessfulConnections := 0, RejectedConnections := 0
      RejectedConnectionsByClient := 0
      ActiveSeconds := 0, ActiveFailedSeconds := 0, FailedSeconds := 0 }
  let r := staleConnMapInfo.foldl accountLoopStep (inc, false)
  let inc := r.1
  let activeFailedSecond := r.2
  let inc := { inc with
    SuccessfulConnections := inc.SuccessfulConnections + succeeded_connections
    RejectedConnections := inc.RejectedConnections + failed_connections }
  let activeSecond :=
    if staleConnMapInfo.length > 0 ∨ succeeded_connections > 0 ∨ failed_connections > 0
    then true else false
  let activeFailedSecond := if failed_connections > 0 then true else activeFailedSecond
  let failedSecond :=
    if (previousFailedSecond && !activeSecond) || activeFailedSecond then true else false
  let inc := if activeFailedSecond
    then { inc with ActiveFailedSeconds := inc.ActiveFailedSeconds + 1 } else inc
  let inc := if activeSecond
    then { inc with ActiveSeconds := inc.ActiveSeconds + 1 } else inc
  let inc := if failedSecond
    then { inc with FailedSeconds := inc.FailedSeconds + 1 } else inc
  (inc, failedSecond, snis)

/-- State.deleteExpiredSNIs from packet.go: every entry whose last update
plus the expiration lies strictly before now is deleted and its metric
series dropped.  Returns (surviving entries, names whose series were
deleted). -/
def deleteExpiredSNIs (snis : List (String × Nat)) (now : Nat) :
    List (String × Nat) × List String :=
  (snis.filter (fun e => decide (¬ (e.2 + Expiration < now))),
   (snis.filter (fun e => decide (e.2 + Expiration < now))).map Prod.fst)

/-- Observable side effects of one tick, in program order: sending an Inc on
the incs channel and writing the new ticker clock value to the clock map. -/
inductive Event where
  | sent (i : Inc)
  | clockWrite (v : Nat)
deriving DecidableEq, Repr

/-- The state accessible to TrackConnections: the two eBPF maps (connection
table and 20-slot rotating stats table), the aggregator-private carry-over
maps previousFailedSecond and State.snis, and the local currentTickerClock
variable. -/
structure AggState where
  connMap : List (TupleKey × TupleData)
  statsMap : List (List (List Nat × Nat × Nat))
  prevFailed : List (ConnKey × Bool)
  snis : List (String × Nat)
  clock : Nat
deriving DecidableEq, Repr

/-- Result of one completed (non-panicking) tick: new state, the Inc messages
sent, the side-effect trace, and the SNI names whose metric series were
deleted by expiry. -/
structure TickResult where
  state : AggState
  incs : List Inc
  trace : List Event
  deleted : List String
deriving DecidableEq, Repr

/-- Accumulator of the per-SNI loop in TrackConnections. -/
structure FoldAcc where
  snis : List (String × Nat)
  prevFailed : List (ConnKey × Bool)
  incs : List Inc
  trace : List Event
deriving DecidableEq, Repr

/-- Go set insertion (sniSet[k] = dummy): keep the first occurrence. -/
def setInsert (l : List ConnKey) (k : ConnKey) : List ConnKey :=
  if k ∈ l then l else l ++ [k]

/-- The body of the loop over sniSet in TrackConnections (packet.go lines
212-225): read the completed-connection counts from the stats slot, insert a
default false into previousFailedSecond when the triple is new, fold through
accountForConnections, store the returned failedSecond, and send the Inc. -/
def processSni (statsValuesAtKey : List (ConnKey × Nat × Nat))
    (staleConnections : ConnKey → List TupleData) (now : Nat)
    (acc : FoldAcc) (sni : ConnKey) : FoldAcc :=
  let completed := (mapLookup statsValuesAtKey sni).getD (0, 0)
  let prevFailed1 := if (mapLookup acc.prevFailed sni).isNone
    then mapInsert acc.prevFailed sni false else acc.prevFailed
  let prev := (mapLookup prevFailed1 sni).getD false
  let r := accountForConnections acc.snis now sni prev (staleConnections sni)
    completed.1 completed.2
  { snis := r.2.2
    prevFailed := mapInsert prevFailed1 sni r.2.1
    incs := acc.incs ++ [r.1]
    trace := acc.trace ++ [Event.sent r.1] }

/-- One iteration of the tick branch of TrackConnections (packet.go lines
148-234), with fault-injection flags for the three fallible map operations:
errConn models connections.Err() failing after the scan, errStats models the
stats-slot lookup failing, errPut models the ticker-clock write failing.
Returns none when the tick panics at run time (the PutUint32 decode of a
drained old connection). -/
def tickStep (errConn errStats errPut : Bool) (now : Nat) (st : AggState) :
    Option TickResult :=
  let scanned := scanConnections st.connMap st.clock
  let oldConnections := scanned.1
  let connMap1 := scanned.2
  if errConn then
    some ⟨st, [], [], []⟩
  else
    let statsKey := (st.clock + 1) % 20
    match (if errStats then none else getOldestStatsAndCleanup st.statsMap statsKey) with
    | none => some ⟨{ st with connMap := connMap1 }, [], [], []⟩
    | some (statsValuesAtKey, statsMap1) =>
      match oldDecodes oldConnections with
      | none => none
      | some decoded =>
        let sniSet :=
          (decoded.map Prod.fst ++ statsValuesAtKey.map Prod.fst).foldl setInsert []
        let staleConnections := fun ck =>
          (decoded.filter (fun e => decide (e.1 = ck))).map Prod.snd
        let acc := sniSet.foldl (processSni statsValuesAtKey staleConnections now)
          ⟨st.snis, st.prevFailed, [], []⟩
        let expired := deleteExpiredSNIs acc.snis now
        let clock1 := st.clock + 1
        let trace := acc.trace ++ (if errPut then [] else [Event.clockWrite clock1])
        some ⟨⟨connMap1, statsMap1, acc.prevFailed, expired.1, clock1⟩,
          acc.incs, trace, expired.2⟩

/-! ## Association-list map lemmas -/

theorem mapLookup_cons_of_eq {α β : Type} [DecidableEq α] (e : α × β) (m : List (α × β))
    (k : α) (h : e.1 = k) : mapLookup (e :: m) k = some e.2 := by
  simp [mapLookup, List.find?_cons_of_pos, h]

theorem mapLookup_cons_of_ne {α β : Type} [DecidableEq α] (e : α × β) (m : List (α × β))
    (k : α) (h : ¬ (e.1 = k)) : mapLookup (e :: m) k = mapLookup m k := by
  simp only [mapLookup]
  rw [List.find?_cons_of_neg _ (by simp [h])]

theorem mapLookup_filter_ne {α β : Type} [DecidableEq α] (m : List (α × β)) (k k' : α)
    (h : k' ≠ k) :
    mapLookup (m.filter (fun e => decide (e.1 ≠ k))) k' = mapLookup m k' := by
  induction m with
  | nil => rfl
  | cons e rest ih =>
    by_cases he : e.1 = k
    · have hne : ¬ (e.1 = k') := fun hc => h (by rw [← hc, he])
      rw [List.filter_cons_of_neg (by simp [he]), ih, mapLookup_cons_of_ne e rest k' hne]
    · by_cases he' : e.1 = k'
      · rw [List.filter_cons_of_pos (by simp [he]), mapLookup_cons_of_eq _ _ _ he',
          mapLookup_cons_of_eq _ _ _ he']
      · rw [List.filter_cons_of_pos (by simp [he]), mapLookup_cons_of_ne _ _ _ he',
          mapLookup_cons_of_ne _ _ _ he', ih]

theorem mapLookup_insert_self {α β : Type} [DecidableEq α] (m : List (α × β)) (k : α) (v : β) :
    mapLookup (mapInsert m k v) k = some v := by
  simp [mapInsert, mapLookup_cons_of_eq]

theorem mapLookup_insert_ne {α β : Type} [DecidableEq α] (m : List (α × β)) (k k' : α) (v : β)
    (h : k' ≠ k) : mapLookup (mapInsert m k v) k' = mapLookup m k' := by
  rw [mapInsert, mapLookup_cons_of_ne _ _ _ (fun hc => h (by rw [← hc]))]
  exact mapLookup_filter_ne m k k' h

theorem mapLookup_insertAll_not_mem {α β : Type} [DecidableEq α] (l : List (α × β))
    (m : List (α × β)) (k : α) (h : k ∉ l.map Prod.fst) :
    mapLookup (l.foldl (fun acc e => mapInsert acc e.1 e.2) m) k = mapLookup m k := by
  induction l generalizing m with
  | nil => rfl
  | cons e rest ih =>
    simp only [List.map_cons, List.mem_cons, not_or] at h
    rw [List.foldl_cons, ih _ h.2, mapLookup_insert_ne _ _ _ _ h.1]

theorem mapLookup_insertAll_mem {α β : Type} [DecidableEq α] (l : List (α × β))
    (m : List (α × β)) (hnd : (l.map Prod.fst).Nodup) (k : α) (v : β) (hm : (k, v) ∈ l) :
    mapLookup (l.foldl (fun acc e => mapInsert acc e.1 e.2) m) k = some v := by
  induction l generalizing m with
  | nil => cases hm
  | cons e rest ih =>
    simp only [List.map_cons, List.nodup_cons] at hnd
    rcases List.mem_cons.mp hm with heq | hrest
    · subst heq
      rw [List.foldl_cons, mapLookup_insertAll_not_mem rest _ k hnd.1]
      exact mapLookup_insert_self m k v
    · rw [List.foldl_cons]
      exact ih _ hnd.2 hrest

theorem mem_mapInsert {α β : Type} [DecidableEq α] {m : List (α × β)} {k : α} {v : β}
    {x : α × β} (h : x ∈ mapInsert m k v) : x = (k, v) ∨ x ∈ m := by
  rcases List.mem_cons.mp h with h1 | h2
  · exact Or.inl h1
  · exact Or.inr (List.mem_of_mem_filter h2)

theorem keys_insertAll {α β : Type} [DecidableEq α] (l : List (α × β)) (m : List (α × β))
    (x : α × β) (h : x ∈ l.foldl (fun acc e => mapInsert acc e.1 e.2) m) :
    x.1 ∈ l.map Prod.fst ∨ x ∈ m := by
  induction l generalizing m with
  | nil => exact Or.inr h
  | cons e rest ih =>
    rw [List.foldl_cons] at h
    rcases ih (mapInsert m e.1 e.2) h with h1 | h2
    · exact Or.inl (List.mem_cons_of_mem _ h1)
    · rcases mem_mapInsert h2 with h3 | h4
      · left
        simp [h3]
      · exact Or.inr h4

theorem foldl_mapDelete_eq_filter {α β : Type} [DecidableEq α] (ks : List α)
    (m : List (α × β)) :
    ks.foldl mapDelete m = m.filter (fun e => decide (e.1 ∉ ks)) := by
  induction ks generalizing m with
  | nil => simp
  | cons k ks ih =>
    rw [List.foldl_cons, ih, mapDelete, List.filter_filter]
    apply List.filter_congr
    intro e _
    by_cases h1 : e.1 = k <;> by_cases h2 : e.1 ∈ ks <;> simp [h1, h2]

theorem foldl_mapDelete_keys_nil {α β : Type} [DecidableEq α] (l : List (α × β)) :
    (l.map Prod.fst).foldl mapDelete l = [] := by
  rw [foldl_mapDelete_eq_filter]
  refine List.filter_eq_nil_iff.mpr (fun e he => ?_)
  simp only [decide_eq_true_eq, not_not]
  exact List.mem_map_of_mem Prod.fst he

/-! ## Folding-rule lemmas -/

theorem accountLoopStep_eq (acc : Inc × Bool) (v : TupleData) :
    accountLoopStep acc v =
      match v.state with
      | TupleState.NEW => acc
      | TupleState.SYN_RECEIVED => (acc.1, true)
      | TupleState.SYNACK_RECEIVED => (acc.1, true)
      | TupleState.SNI_RECEIVED =>
          ({ acc.1 with SuccessfulConnections := acc.1.SuccessfulConnections + 1 }, acc.2)
      | TupleState.RST_SENT_BY_SERVER =>
          ({ acc.1 with RejectedConnections := acc.1.RejectedConnections + 1 }, true)
      | TupleState.RST_SENT_BY_CLIENT =>
          ({ acc.1 with
              RejectedConnectionsByClient := acc.1.RejectedConnectionsByClient + 1 }, acc.2)
      | TupleState.FIN_SENT => acc := by
  cases hv : v.state <;> simp [accountLoopStep, hv]

theorem accountLoop_fields (l : List TupleData) (inc : Inc) (af : Bool) :
    (l.foldl accountLoopStep (inc, af)).2 = (af || staleActiveFailed l)
    ∧ (l.foldl accountLoopStep (inc, af)).1.SNI = inc.SNI
    ∧ (l.foldl accountLoopStep (inc, af)).1.SourceIP = inc.SourceIP
    ∧ (l.foldl accountLoopStep (inc, af)).1.DestIP = inc.DestIP
    ∧ (l.foldl accountLoopStep (inc, af)).1.ActiveSeconds = inc.ActiveSeconds
    ∧ (l.foldl accountLoopStep (inc, af)).1.ActiveFailedSeconds = inc.ActiveFailedSeconds
    ∧ (l.foldl accountLoopStep (inc, af)).1.FailedSeconds = inc.FailedSeconds := by
  induction l generalizing inc af with
  | nil => simp [staleActiveFailed]
  | cons v rest ih =>
    rw [List.foldl_cons, accountLoopStep_eq]
    cases hv : v.state <;>
      simp [staleActiveFailed, hv, ih, Bool.or_assoc]

/-- C3: within the per-triple folding rule, each stale tuple contributes
according to its state: SYN_RECEIVED or SYNACK_RECEIVED only set the
active-failed flag, SNI_RECEIVED adds exactly one successful connection,
RST_SENT_BY_SERVER adds exactly one rejected connection and sets the
active-failed flag, RST_SENT_BY_CLIENT adds exactly one client-rejected
connection, and NEW and FIN_SENT tuples contribute nothing. -/
theorem c3_stale_tuple_contribution (inc : Inc) (activeFailed : Bool) (v : TupleData) :
    accountLoopStep (inc, activeFailed) v =
      match v.state with
      | TupleState.NEW => (inc, activeFailed)
      | TupleState.SYN_RECEIVED => (inc, true)
      | TupleState.SYNACK_RECEIVED => (inc, true)
      | TupleState.SNI_RECEIVED =>
          ({ inc with SuccessfulConnections := inc.SuccessfulConnections + 1 }, activeFailed)
      | TupleState.RST_SENT_BY_SERVER =>
          ({ inc with RejectedConnections := inc.RejectedConnections + 1 }, true)
      | TupleState.RST_SENT_BY_CLIENT =>
          ({ inc with
              RejectedConnectionsByClient := inc.RejectedConnectionsByClient + 1 },
            activeFailed)
      | TupleState.FIN_SENT => (inc, activeFailed) :=
  accountLoopStep_eq (inc, activeFailed) v

/-- C4: the folding rule computes the second-level flags exactly as specified:
active holds exactly when there are stale tuples or nonzero stats counts, a
nonzero failed count from the stats slot forces the active-failed flag, and
the returned failed second is (previous failed AND NOT active) OR
active-failed. -/
theorem c4_folding_flags (snis : List (String × Nat)) (now : Nat) (ck : ConnKey)
    (prev : Bool) (stale : List TupleData) (s f : Nat) :
    ((accountForConnections snis now ck prev stale s f).1.ActiveSeconds
        = if stale ≠ [] ∨ 0 < s ∨ 0 < f then 1 else 0)
    ∧ ((accountForConnections snis now ck prev stale s f).1.ActiveFailedSeconds
        = if (staleActiveFailed stale || decide (0 < f)) = true then 1 else 0)
    ∧ ((accountForConnections snis now ck prev stale s f).2.1
        = ((prev && !(decide (stale ≠ [] ∨ 0 < s ∨ 0 < f)))
            || (staleActiveFailed stale || decide (0 < f)))) := by
  obtain ⟨h2, _, _, _, hA, hAF, _⟩ := accountLoop_fields stale
    ⟨ck.sni, ck.sourceIP, ck.destIP, 0, 0, 0, 0, 0, 0⟩ false
  by_cases hq : stale ≠ [] ∨ 0 < s ∨ 0 < f <;>
    by_cases hf : 0 < f <;>
    cases hsf : staleActiveFailed stale <;>
    cases prev <;>
      simp_all [accountForConnections, List.length_pos]

/-- C10: every Inc produced by the folding rule has each of the fields
ActiveSeconds, ActiveFailedSeconds and FailedSeconds equal to 0 or 1. -/
theorem c10_seconds_zero_or_one (snis : List (String × Nat)) (now : Nat) (ck : ConnKey)
    (prev : Bool) (stale : List TupleData) (s f : Nat) :
    ((accountForConnections snis now ck prev stale s f).1.ActiveSeconds = 0
      ∨ (accountForConnections snis now ck prev stale s f).1.ActiveSeconds = 1)
    ∧ ((accountForConnections snis now ck prev stale s f).1.ActiveFailedSeconds = 0
      ∨ (accountForConnections snis now ck prev stale s f).1.ActiveFailedSeconds = 1)
    ∧ ((accountForConnections snis now ck prev stale s f).1.FailedSeconds = 0
      ∨ (accountForConnections snis now ck prev stale s f).1.FailedSeconds = 1) := by
  obtain ⟨h2, _, _, _, hA, hAF, hF⟩ := accountLoop_fields stale
    ⟨ck.sni, ck.sourceIP, ck.destIP, 0, 0, 0, 0, 0, 0⟩ false
  by_cases hq : stale.length > 0 ∨ s > 0 ∨ f > 0 <;>
    by_cases hf : 0 < f <;>
    cases hsf : staleActiveFailed stale <;>
    cases prev <;>
      simp_all [accountForConnections]

theorem accountForConnections_labels (snis : List (String × Nat)) (now : Nat) (ck : ConnKey)
    (prev : Bool) (stale : List TupleData) (s f : Nat) :
    (accountForConnections snis now ck prev stale s f).1.SNI = ck.sni
    ∧ (accountForConnections snis now ck prev stale s f).1.SourceIP = ck.sourceIP
    ∧ (accountForConnections snis now ck prev stale s f).1.DestIP = ck.destIP := by
  obtain ⟨h2, hS, hSo, hD, hA, hAF, hF⟩ := accountLoop_fields stale
    ⟨ck.sni, ck.sourceIP, ck.destIP, 0, 0, 0, 0, 0, 0⟩ false
  by_cases hq : stale ≠ [] ∨ 0 < s ∨ 0 < f <;>
    by_cases hf : 0 < f <;>
    cases hsf : staleActiveFailed stale <;>
    cases prev <;>
      simp_all [accountForConnections, List.length_pos]

theorem accountForConnections_snis (snis : List (String × Nat)) (now : Nat) (ck : ConnKey)
    (prev : Bool) (stale : List TupleData) (s f : Nat) :
    (accountForConnections snis now ck prev stale s f).2.2
      = if (mapLookup snis ck.sni).isNone then mapInsert snis ck.sni now else snis := rfl

def ckB : ConnKey := ⟨"10.0.0.1", "10.0.0.2", "b"⟩

/-- C9 counterexample: folding the triple for SNI "b" at time 7 with the snis
map already holding ("b", 0) leaves the stored timestamp at 0 instead of
setting it to the current time 7, so the map does not record the most recent
activity. -/
theorem c9_counterexample :
    (accountForConnections [("b", 0)] 7 ckB false [] 0 1).2.2 = [("b", 0)]
    ∧ mapLookup (accountForConnections [("b", 0)] 7 ckB false [] 0 1).2.2 "b" = some 0
    ∧ (0 : Nat) ≠ 7 := by
  refine ⟨rfl, rfl, by decide⟩

/-- C9 amended: the snis map records the time an SNI was first seen (since
its last expiry), not its most recent activity: a fold writes the current
time only when the SNI is absent, an existing entry is left untouched, and
deleteExpiredSNIs removes exactly the entries whose stored time plus the
retention window lies before now, together with their metric series. -/
theorem c9_snis_first_seen (snis : List (String × Nat)) (now : Nat) (ck : ConnKey)
    (prev : Bool) (stale : List TupleData) (s f : Nat) :
    (mapLookup snis ck.sni = none →
      (accountForConnections snis now ck prev stale s f).2.2 = mapInsert snis ck.sni now)
    ∧ (∀ t, mapLookup snis ck.sni = some t →
      (accountForConnections snis now ck prev stale s f).2.2 = snis)
    ∧ (∀ name ts, (name, ts) ∈ (deleteExpiredSNIs snis now).1 ↔
        (name, ts) ∈ snis ∧ ¬ (ts + Expiration < now))
    ∧ (∀ name, name ∈ (deleteExpiredSNIs snis now).2 ↔
        ∃ ts, (name, ts) ∈ snis ∧ ts + Expiration < now) := by
  refine ⟨?_, ?_, ?_, ?_⟩
  · intro h
    rw [accountForConnections_snis, h]
    rfl
  · intro t h
    rw [accountForConnections_snis, h]
    rfl
  · intro name ts
    simp [deleteExpiredSNIs, List.mem_filter]
  · intro name
    simp only [deleteExpiredSNIs, List.mem_map, List.mem_filter, decide_eq_true_eq]
    constructor
    · rintro ⟨⟨a, b⟩, ⟨hm, hexp⟩, rfl⟩
      exact ⟨b, hm, hexp⟩
    · rintro ⟨ts, hm, hexp⟩
      exact ⟨(name, ts), ⟨hm, hexp⟩, rfl⟩

/-- Witness for the amended C9 theorem at a concrete input. -/
theorem c9_snis_first_seen_witness :
    (accountForConnections [("a", 1)] 500 ⟨"1.2.3.4", "5.6.7.8", "a"⟩ false [] 1 0).2.2
        = [("a", 1)]
    ∧ (("a", 1) ∈ (deleteExpiredSNIs [("a", 1)] 500).1 ↔
        ("a", 1) ∈ ([("a", 1)] : List (String × Nat)) ∧ ¬ ((1 : Nat) + Expiration < 500)) :=
  ⟨(c9_snis_first_seen [("a", 1)] 500 ⟨"1.2.3.4", "5.6.7.8", "a"⟩ false [] 1 0).2.1 1 rfl,
   (c9_snis_first_seen [("a", 1)] 500 ⟨"1.2.3.4", "5.6.7.8", "a"⟩ false [] 1 0).2.2.1 "a" 1⟩

/-! ## Tick-level lemmas -/

theorem putUint32LE_nil (v : Nat) : putUint32LE [] v = none := by
  simp [putUint32LE]

theorem oldDecodes_eq_some {l : List (TupleKey × TupleData)} {d : List (ConnKey × TupleData)}
    (h : oldDecodes l = some d) : l = [] ∧ d = [] := by
  cases l with
  | nil =>
    refine ⟨rfl, ?_⟩
    simpa [oldDecodes] using h.symm
  | cons e rest =>
    exfalso
    simp [oldDecodes, decodeConnKey, decodeOldConnIP, putUint32LE] at h

theorem tickStep_some_connMap {e2 e3 : Bool} {now : Nat} {st : AggState} {r : TickResult}
    (h : tickStep false e2 e3 now st = some r) :
    r.state.connMap = (scanConnections st.connMap st.clock).2 := by
  simp only [tickStep, Bool.false_eq_true, if_false] at h
  rcases hif : (if e2 = true then (none : Option (List (ConnKey × Nat × Nat) ×
      List (List (List Nat × Nat × Nat)))) else
      getOldestStatsAndCleanup st.statsMap ((st.clock + 1) % 20)) with _ | ⟨out, sm1⟩
  · rw [hif] at h
    obtain rfl := (Option.some.inj h).symm
    rfl
  · rw [hif] at h
    rcases hd : oldDecodes (scanConnections st.connMap st.clock).1 with _ | dec
    · rw [hd] at h
      cases h
    · rw [hd] at h
      obtain rfl := (Option.some.inj h).symm
      rfl

/-- C6: a connection-table entry is classified old exactly when the current
tick exceeds its first-packet tick by more than 20; the scan collects exactly
the old entries, after the deletes exactly the fresh entries remain, and any
completed tick leaves the connection table equal to that result. -/
theorem c6_old_connection_drain (connMap : List (TupleKey × TupleData)) (clk : Nat)
    (hnd : (connMap.map Prod.fst).Nodup) :
    (∀ e, e ∈ (scanConnections connMap clk).1 ↔
      e ∈ connMap ∧ e.2.tickerClockFirstPacket + 20 < clk)
    ∧ (∀ e, e ∈ (scanConnections connMap clk).2 ↔
      e ∈ connMap ∧ ¬ (e.2.tickerClockFirstPacket + 20 < clk))
    ∧ (∀ (st : AggState) (e2 e3 : Bool) (now : Nat) (r : TickResult),
        st.connMap = connMap → st.clock = clk →
        tickStep false e2 e3 now st = some r →
        r.state.connMap = (scanConnections connMap clk).2) := by
  have hmem1 : ∀ e, e ∈ (scanConnections connMap clk).1 ↔
      e ∈ connMap ∧ e.2.tickerClockFirstPacket + 20 < clk := by
    intro e
    simp [scanConnections, List.mem_filter, isConnectionOld, STATS_SECONDS_COUNT,
      Nat.add_comm]
  refine ⟨hmem1, ?_, ?_⟩
  · intro e
    have hfold : (scanConnections connMap clk).2
        = connMap.filter (fun e => decide (e.1 ∉ ((scanConnections connMap clk).1).map Prod.fst)) := by
      show ((scanConnections connMap clk).1).foldl (fun m e => mapDelete m e.1) connMap = _
      rw [← List.foldl_map, foldl_mapDelete_eq_filter]
    rw [hfold, List.mem_filter]
    simp only [decide_eq_true_eq]
    constructor
    · rintro ⟨hm, hk⟩
      refine ⟨hm, fun hold => hk ?_⟩
      exact List.mem_map_of_mem Prod.fst ((hmem1 e).mpr ⟨hm, hold⟩)
    · rintro ⟨hm, hfresh⟩
      refine ⟨hm, fun hk => hfresh ?_⟩
      rcases List.mem_map.mp hk with ⟨e', he', hkey⟩
      have he'c := (hmem1 e').mp he'
      have : e' = e := List.inj_on_of_nodup_map hnd he'c.1 hm hkey
      exact this ▸ he'c.2
  · intro st e2 e3 now r hcm hclk h
    rw [← hcm, ← hclk]
    exact tickStep_some_connMap h

def kOldEx : TupleKey := ⟨1, 2, 3, 4⟩

def kFreshEx : TupleKey := ⟨5, 6, 7, 8⟩

def dOldEx : TupleData := ⟨TupleState.SYN_RECEIVED, "", 0⟩

def dFreshEx : TupleData := ⟨TupleState.NEW, "", 10⟩

def connMapEx : List (TupleKey × TupleData) := [(kOldEx, dOldEx), (kFreshEx, dFreshEx)]

/-- Witness for C6 at a concrete connection table with one old and one fresh
entry at tick 25. -/
theorem c6_old_connection_drain_witness :
    ((kOldEx, dOldEx) ∈ (scanConnections connMapEx 25).1 ↔
      (kOldEx, dOldEx) ∈ connMapEx ∧ (kOldEx, dOldEx).2.tickerClockFirstPacket + 20 < 25)
    ∧ ((kFreshEx, dFreshEx) ∈ (scanConnections connMapEx 25).2 ↔
      (kFreshEx, dFreshEx) ∈ connMapEx ∧
        ¬ ((kFreshEx, dFreshEx).2.tickerClockFirstPacket + 20 < 25)) :=
  ⟨(c6_old_connection_drain connMapEx 25 (by decide)).1 (kOldEx, dOldEx),
   (c6_old_connection_drain connMapEx 25 (by decide)).2.1 (kFreshEx, dFreshEx)⟩

theorem foldl_insert_decode (slot : List (List Nat × Nat × Nat))
    (m : List (ConnKey × Nat × Nat)) :
    slot.foldl (fun acc e => mapInsert acc (decodeInnerKey e.1) e.2) m
      = (slot.map (fun e => (decodeInnerKey e.1, e.2))).foldl
          (fun acc e => mapInsert acc e.1 e.2) m := by
  induction slot generalizing m with
  | nil => rfl
  | cons e rest ih => simp [List.foldl_cons, ih]

/-- C5: on a tick the aggregator consumes exactly the stats slot at index
(current tick + 1) mod 20: the lookup succeeds, every inner entry of that
slot is collected into the returned record map, the slot itself is left
empty, every other slot is untouched, and a completed tick installs exactly
this cleaned stats table. -/
theorem c5_stats_slot_consumed (st : AggState) (h20 : st.statsMap.length = 20)
    (hnd : ((st.statsMap.getD ((st.clock + 1) % 20) []).map
        (fun e => decodeInnerKey e.1)).Nodup) :
    ∃ out sm1,
      getOldestStatsAndCleanup st.statsMap ((st.clock + 1) % 20) = some (out, sm1)
      ∧ (∀ e ∈ st.statsMap.getD ((st.clock + 1) % 20) [],
          mapLookup out (decodeInnerKey e.1) = some e.2)
      ∧ sm1.getD ((st.clock + 1) % 20) [] = []
      ∧ (∀ j, j ≠ (st.clock + 1) % 20 → sm1.getD j [] = st.statsMap.getD j [])
      ∧ (∀ (e3 : Bool) (now : Nat) (r : TickResult),
          tickStep false false e3 now st = some r → r.state.statsMap = sm1) := by
  have hk : (st.clock + 1) % 20 < st.statsMap.length := by
    rw [h20]
    exact Nat.mod_lt _ (by norm_num)
  have hg : getOldestStatsAndCleanup st.statsMap ((st.clock + 1) % 20)
      = some ((st.statsMap.getD ((st.clock + 1) % 20) []).foldl
          (fun m e => mapInsert m (decodeInnerKey e.1) e.2) [],
        st.statsMap.set ((st.clock + 1) % 20)
          (((st.statsMap.getD ((st.clock + 1) % 20) []).map Prod.fst).foldl mapDelete
            (st.statsMap.getD ((st.clock + 1) % 20) []))) := by
    simp [getOldestStatsAndCleanup, hk]
  refine ⟨_, _, hg, ?_, ?_, ?_, ?_⟩
  · intro e he
    rw [foldl_insert_decode]
    apply mapLookup_insertAll_mem
    · rw [List.map_map]
      exact hnd
    · exact List.mem_map_of_mem _ he
  · rw [foldl_mapDelete_keys_nil, List.getD_eq_getElem?_getD, List.getElem?_set_self hk]
    rfl
  · intro j hj
    rw [List.getD_eq_getElem?_getD, List.getElem?_set_ne (Ne.symm hj)]
    exact (List.getD_eq_getElem?_getD _ _ _).symm
  · intro e3 now r h
    simp only [tickStep, Bool.false_eq_true, if_false] at h
    rw [hg] at h
    rcases hd : oldDecodes (scanConnections st.connMap st.clock).1 with _ | dec
    · rw [hd] at h
      cases h
    · rw [hd] at h
      obtain rfl := (Option.some.inj h).symm
      rfl

theorem mem_foldl_setInsert {keys : List ConnKey} {init : List ConnKey} {x : ConnKey}
    (h : x ∈ keys.foldl setInsert init) : x ∈ init ∨ x ∈ keys := by
  induction keys generalizing init with
  | nil => exact Or.inl h
  | cons k rest ih =>
    rw [List.foldl_cons] at h
    rcases ih h with h1 | h2
    · unfold setInsert at h1
      split at h1
      · exact Or.inl h1
      · rcases List.mem_append.mp h1 with h2 | h3
        · exact Or.inl h2
        · exact Or.inr (by rw [List.mem_singleton.mp h3]; exact List.mem_cons_self _ _)
    · exact Or.inr (List.mem_cons_of_mem _ h2)

theorem processSni_fold_trace (sv : List (ConnKey × Nat × Nat))
    (sc : ConnKey → List TupleData) (now : Nat) (l : List ConnKey) (acc : FoldAcc)
    (h : acc.trace = acc.incs.map Event.sent) :
    (l.foldl (processSni sv sc now) acc).trace
      = ((l.foldl (processSni sv sc now) acc).incs).map Event.sent := by
  induction l generalizing acc with
  | nil => exact h
  | cons ck rest ih =>
    rw [List.foldl_cons]
    exact ih _ (by simp [processSni, h])

theorem processSni_fold_incs_labels (sv : List (ConnKey × Nat × Nat))
    (sc : ConnKey → List TupleData) (now : Nat) (l : List ConnKey) (acc : FoldAcc) :
    ∀ inc ∈ (l.foldl (processSni sv sc now) acc).incs,
      inc ∈ acc.incs ∨ ∃ ck ∈ l, inc.SNI = ck.sni ∧ inc.SourceIP = ck.sourceIP
        ∧ inc.DestIP = ck.destIP := by
  induction l generalizing acc with
  | nil => exact fun inc h => Or.inl h
  | cons ck rest ih =>
    intro inc h
    rw [List.foldl_cons] at h
    rcases ih (processSni sv sc now acc ck) inc h with h1 | ⟨ck', hck', hl⟩
    · simp only [processSni] at h1
      rcases List.mem_append.mp h1 with h2 | h3
      · exact Or.inl h2
      · right
        refine ⟨ck, List.mem_cons_self _ _, ?_⟩
        have h4 := List.mem_singleton.mp h3
        subst h4
        exact accountForConnections_labels _ _ _ _ _ _ _
    · exact Or.inr ⟨ck', List.mem_cons_of_mem _ hck', hl⟩

theorem processSni_fold_prevFailed (sv : List (ConnKey × Nat × Nat))
    (sc : ConnKey → List TupleData) (now : Nat) (l : List ConnKey) (acc : FoldAcc)
    (ck : ConnKey) (h : ∀ ck' ∈ l, ck' ≠ ck) :
    mapLookup (l.foldl (processSni sv sc now) acc).prevFailed ck
      = mapLookup acc.prevFailed ck := by
  induction l generalizing acc with
  | nil => rfl
  | cons ck' rest ih =>
    rw [List.foldl_cons, ih _ (fun c hc => h c (List.mem_cons_of_mem _ hc))]
    have hne : ck ≠ ck' := Ne.symm (h ck' (List.mem_cons_self _ _))
    simp only [processSni]
    rw [mapLookup_insert_ne _ _ _ _ hne]
    split
    · rw [mapLookup_insert_ne _ _ _ _ hne]
    · rfl

def exSt1 : AggState :=
  ⟨[(⟨167772170, 167772426, 1234, 443⟩, ⟨TupleState.SYN_RECEIVED, "", 0⟩)],
    List.replicate 20 [], [], [], 21⟩

/-- C1: the decode of an old connection key in TrackConnections writes the
address into a zero-length net.IP literal, so PutUint32 is out of bounds for
every address value, and any tick that drains a non-empty set of old
connections panics instead of completing (modelled as tickStep returning
none on a table with one 21-tick-old connection). -/
theorem c1_decode_panics :
    (∀ ip : Nat, decodeOldConnIP ip = none)
    ∧ tickStep false false false 0 exSt1 = none := by
  constructor
  · exact fun ip => putUint32LE_nil ip
  · rfl

def exSt7 : AggState := ⟨[(kOldEx, dOldEx)], List.replicate 20 [], [], [], 25⟩

/-- C7 counterexample: on a tick whose stats-slot read fails, the old
connection entry has already been deleted from the connection table, so the
tick is not abandoned before state is modified: the resulting state differs
from the starting state. -/
theorem c7_counterexample :
    tickStep false true false 0 exSt7
      = some ⟨⟨[], exSt7.statsMap, [], [], 25⟩, [], [], []⟩
    ∧ (⟨[], exSt7.statsMap, [], [], 25⟩ : AggState) ≠ exSt7 := by
  exact ⟨rfl, by decide⟩

/-- C7 amended: when reading the connection table fails, the tick changes
nothing at all; when reading the stats slot fails, the carry-over maps, the
stats table and the ticker clock are unchanged and no Inc is emitted (so the
same logical second is retried), but the old connection entries have already
been deleted from the connection table. -/
theorem c7_error_tick_state (st : AggState) (now : Nat) (e2 e3 : Bool) :
    tickStep true e2 e3 now st = some ⟨st, [], [], []⟩
    ∧ tickStep false true e3 now st
        = some ⟨{ st with connMap := (scanConnections st.connMap st.clock).2 },
            [], [], []⟩ := by
  exact ⟨rfl, rfl⟩

def exStats2 : List (List (List Nat × Nat × Nat)) :=
  (List.replicate 20 ([] : List (List Nat × Nat × Nat))).set 1
    [([10, 0, 0, 1, 10, 0, 0, 2, 98, 0], (0, 1))]

def exSt2 : AggState := ⟨[], exStats2, [], [], 0⟩

/-- C2 counterexample: at tick t the stats slot reports one rejected
connection for the triple (10.0.0.1, 10.0.0.2, "b"), and the aggregator
emits an Inc with failed_seconds = 1 and active_seconds = 1; at tick t+1
there is no traffic for the triple and the aggregator emits no Inc at all,
contradicting the claim that ticks t+1..t+3 each emit an Inc with
failed_seconds = 1. -/
theorem c2_counterexample :
    ((tickStep false false false 0 exSt2).map (fun r =>
        r.incs.map (fun i => (i.SNI, i.SourceIP, i.DestIP, i.FailedSeconds, i.ActiveSeconds)))
      = some [("b", "10.0.0.1", "10.0.0.2", 1, 1)])
    ∧ ((tickStep false false false 0 exSt2).bind (fun r =>
        (tickStep false false false 1 r.state).map (fun r2 => r2.incs)) = some []) := by
  exact ⟨rfl, rfl⟩

/-- C2 amended: on a tick with no traffic for a triple (no old connection
and no stats-slot entry decoding to it), the aggregator emits no Inc for
that triple at all, and its carry-over entry in previousFailedSecond is left
unchanged, so an earlier failed second is carried silently and never
re-emitted while the triple stays inactive. -/
theorem c2_inactive_triple_no_inc (st : AggState) (now : Nat) (ck : ConnKey)
    (hslot : ∀ e ∈ st.statsMap.getD ((st.clock + 1) % 20) [], decodeInnerKey e.1 ≠ ck)
    (r : TickResult) (h : tickStep false false false now st = some r) :
    (∀ inc ∈ r.incs,
      ¬ (inc.SNI = ck.sni ∧ inc.SourceIP = ck.sourceIP ∧ inc.DestIP = ck.destIP))
    ∧ mapLookup r.state.prevFailed ck = mapLookup st.prevFailed ck := by
  simp only [tickStep, Bool.false_eq_true, if_false] at h
  by_cases hk : (st.clock + 1) % 20 < st.statsMap.length
  · have hg : getOldestStatsAndCleanup st.statsMap ((st.clock + 1) % 20)
        = some ((st.statsMap.getD ((st.clock + 1) % 20) []).foldl
            (fun m e => mapInsert m (decodeInnerKey e.1) e.2) [],
          st.statsMap.set ((st.clock + 1) % 20)
            (((st.statsMap.getD ((st.clock + 1) % 20) []).map Prod.fst).foldl mapDelete
              (st.statsMap.getD ((st.clock + 1) % 20) []))) := by
      simp [getOldestStatsAndCleanup, hk]
    rw [hg] at h
    rcases hd : oldDecodes (scanConnections st.connMap st.clock).1 with _ | dec
    · rw [hd] at h
      cases h
    · rw [hd] at h
      obtain ⟨hold, hdec⟩ := oldDecodes_eq_some hd
      subst hdec
      obtain rfl := (Option.some.inj h).symm
      have hkeys : ∀ ck' ∈ ((List.map Prod.fst ([] : List (ConnKey × TupleData))
          ++ List.map Prod.fst ((st.statsMap.getD ((st.clock + 1) % 20) []).foldl
            (fun m e => mapInsert m (decodeInnerKey e.1) e.2) [])).foldl setInsert []),
          ck' ≠ ck := by
        intro ck' hmem
        rcases mem_foldl_setInsert hmem with h1 | h2
        · cases h1
        · simp only [List.map_nil, List.nil_append] at h2
          rcases List.mem_map.mp h2 with ⟨x, hx, rfl⟩
          rw [foldl_insert_decode] at hx
          rcases keys_insertAll _ _ _ hx with h3 | h4
          · rcases List.mem_map.mp h3 with ⟨y, hy, hyx⟩
            rcases List.mem_map.mp hy with ⟨e, he, hey⟩
            subst hey
            exact fun hc => hslot e he (hyx.trans hc)
          · cases h4
      constructor
      · intro inc hi
        rcases processSni_fold_incs_labels _ _ _ _ _ inc hi with h1 | ⟨ck', hck', hl⟩
        · cases h1
        · rintro ⟨e1, e2, e3⟩
          refine hkeys ck' hck' ?_
          obtain ⟨l1, l2, l3⟩ := hl
          cases ck'
          cases ck
          simp only [ConnKey.mk.injEq]
          simp only at l1 l2 l3 e1 e2 e3
          exact ⟨l2.symm.trans e2, l3.symm.trans e3, l1.symm.trans e1⟩
      · exact processSni_fold_prevFailed _ _ _ _ _ ck hkeys
  · have hg : getOldestStatsAndCleanup st.statsMap ((st.clock + 1) % 20) = none := by
      simp [getOldestStatsAndCleanup, hk]
    rw [hg] at h
    obtain rfl := (Option.some.inj h).symm
    exact ⟨fun inc hi => absurd hi (List.not_mem_nil inc), rfl⟩

def stC2w : AggState := ⟨[], List.replicate 20 [], [], [], 5⟩

def ckC2w : ConnKey := ⟨"9.9.9.9", "8.8.8.8", "w"⟩

def rC2w : TickResult :=
  ⟨⟨[], (List.replicate 20 ([] : List (List Nat × Nat × Nat))).set 6 [], [], [], 6⟩,
    [], [Event.clockWrite 6], []⟩

/-- Witness for the amended C2 theorem at a concrete tick with no traffic. -/
theorem c2_inactive_triple_no_inc_witness :
    (∀ inc ∈ rC2w.incs,
      ¬ (inc.SNI = ckC2w.sni ∧ inc.SourceIP = ckC2w.sourceIP ∧ inc.DestIP = ckC2w.destIP))
    ∧ mapLookup rC2w.state.prevFailed ckC2w = mapLookup stC2w.prevFailed ckC2w :=
  c2_inactive_triple_no_inc stC2w 0 ckC2w (by decide) rC2w (by rfl)

/-- C8: on a successful tick cycle the side-effect trace consists of exactly
the Inc sends followed by a single ticker-clock write of the incremented
value, and the new clock is the old clock plus one: the clock write commits
the tick only after every Inc has been emitted. -/
theorem c8_clock_commits_after_incs (st : AggState) (now : Nat) (r : TickResult)
    (h20 : st.statsMap.length = 20) (h : tickStep false false false now st = some r) :
    r.trace = r.incs.map Event.sent ++ [Event.clockWrite (st.clock + 1)]
    ∧ r.state.clock = st.clock + 1 := by
  have hk : (st.clock + 1) % 20 < st.statsMap.length := by
    rw [h20]
    exact Nat.mod_lt _ (by norm_num)
  have hg : getOldestStatsAndCleanup st.statsMap ((st.clock + 1) % 20)
      = some ((st.statsMap.getD ((st.clock + 1) % 20) []).foldl
          (fun m e => mapInsert m (decodeInnerKey e.1) e.2) [],
        st.statsMap.set ((st.clock + 1) % 20)
          (((st.statsMap.getD ((st.clock + 1) % 20) []).map Prod.fst).foldl mapDelete
            (st.statsMap.getD ((st.clock + 1) % 20) []))) := by
    simp [getOldestStatsAndCleanup, hk]
  simp only [tickStep, Bool.false_eq_true, if_false] at h
  rw [hg] at h
  rcases hd : oldDecodes (scanConnections st.connMap st.clock).1 with _ | dec
  · rw [hd] at h
    cases h
  · rw [hd] at h
    obtain rfl := (Option.some.inj h).symm
    refine ⟨?_, rfl⟩
    have ht := processSni_fold_trace ((st.statsMap.getD ((st.clock + 1) % 20) []).foldl
        (fun m e => mapInsert m (decodeInnerKey e.1) e.2) [])
      (fun ck => (dec.filter (fun e => decide (e.1 = ck))).map Prod.snd) now
      ((List.map Prod.fst dec ++ List.map Prod.fst
          ((st.statsMap.getD ((st.clock + 1) % 20) []).foldl
            (fun m e => mapInsert m (decodeInnerKey e.1) e.2) [])).foldl setInsert [])
      ⟨st.snis, st.prevFailed, [], []⟩ rfl
    simp only [Bool.false_eq_true, if_false]
    rw [ht]

def stC8w : AggState := ⟨[], List.replicate 20 [], [], [], 0⟩

def rC8w : TickResult :=
  ⟨⟨[], (List.replicate 20 ([] : List (List Nat × Nat × Nat))).set 1 [], [], [], 1⟩,
    [], [Event.clockWrite 1], []⟩

/-- Witness for C8 at a concrete successful tick. -/
theorem c8_clock_commits_after_incs_witness :
    rC8w.trace = rC8w.incs.map Event.sent ++ [Event.clockWrite (stC8w.clock + 1)]
    ∧ rC8w.state.clock = stC8w.clock + 1 :=
  c8_clock_commits_after_incs stC8w 0 rC8w (by decide) (by rfl)

def exStats5 : List (List (List Nat × Nat × Nat)) :=
  (List.replicate 20 ([] : List (List Nat × Nat × Nat))).set 3
    [([1, 2, 3, 4, 5, 6, 7, 8, 97, 0], (2, 1))]

def exSt5 : AggState := ⟨[], exStats5, [], [], 2⟩

/-- Witness for C5 at a concrete stats table holding one entry in the slot
that is due. -/
theorem c5_stats_slot_consumed_witness :
    ∃ out sm1,
      getOldestStatsAndCleanup exSt5.statsMap ((exSt5.clock + 1) % 20) = some (out, sm1)
      ∧ (∀ e ∈ exSt5.statsMap.getD ((exSt5.clock + 1) % 20) [],
          mapLookup out (decodeInnerKey e.1) = some e.2)
      ∧ sm1.getD ((exSt5.clock + 1) % 20) [] = []
      ∧ (∀ j, j ≠ (exSt5.clock + 1) % 20 → sm1.getD j [] = exSt5.statsMap.getD j [])
      ∧ (∀ (e3 : Bool) (now : Nat) (r : TickResult),
          tickStep false false e3 now exSt5 = some r → r.state.statsMap = sm1) :=
  c5_stats_slot_consumed exSt5 (by decide) (by decide)

end ConnectivityExporter
